import Mathlib

/-!
Verification of the MySQL binlog client wire codec, packet framer and
authentication algorithms (repository joshwbrick/mysql-binlog-filter).

The Go source is shallowly embedded: bytes are `Nat` values below 256,
byte strings are `List Nat`, machine integers are `Nat` reduced modulo
2 ^ width where the Go code can overflow, and the byte-at-a-time scanner
of `Conn` is a `ScanConn` record (remaining bytes plus the error the
scanner would report at exhaustion).  Go functions that can panic are
embedded as `Except String` values; `.error` stands for the panic.
-/

set_option maxRecDepth 100000
set_option maxHeartbeats 1000000

namespace Binlog

/-- MaxUint08 from the source: `1<<8 - 1`. -/
def MaxUint08 : Nat := 2 ^ 8 - 1

/-- MaxUint16 from the source: `1<<16 - 1`. -/
def MaxUint16 : Nat := 2 ^ 16 - 1

/-- MaxUint24 from the source: `1<<24 - 1`. -/
def MaxUint24 : Nat := 2 ^ 24 - 1

/-- MaxUint64 from the source: `1<<64 - 1`. -/
def MaxUint64 : Nat := 2 ^ 64 - 1

/-- Little-endian byte image of `v` in `n` bytes, as Go's
`binary.LittleEndian.PutUint64` writes it (low byte first; bytes beyond
the value are zero, bits beyond the width are dropped). -/
def leBytes (v : Nat) : Nat → List Nat
  | 0 => []
  | n + 1 => v % 256 :: leBytes (v / 256) n

/-- Little-endian value of a byte string, as Go's `binary.Read` of an
unsigned integer decodes it. -/
def leUint (b : List Nat) : Nat := b.foldr (fun x acc => x + 256 * acc) 0

/-- `Conn.padBytes` from the source: appends null bytes until the slice
has length `l` (a no-op when `b` is already that long or longer). -/
def padBytes (l : Nat) (b : List Nat) : List Nat := b ++ List.replicate (l - b.length) 0

/-- `Conn.encFixedLenInt` from the source: `binary.LittleEndian.PutUint64`
into an 8-byte buffer, then the slice `b[:l]`. -/
def encFixedLenInt (v l : Nat) : List Nat := (leBytes v 8).take l

/-- `Conn.encLenEncInt` from the source.  The four switch cases use the
bounds MaxUint08/MaxUint16/MaxUint24/MaxUint64; in the fourth case the Go
code allocates a 9-byte buffer, `PutUint64` fills only the first 8 bytes
and the buffer is never truncated, so a trailing zero byte is emitted.
When no case matches, `b` stays nil and the prefix byte is not prepended
(the `len(b) > 1` guard), so the result is empty. -/
def encLenEncInt (v : Nat) : List Nat :=
  if v < MaxUint08 then
    (leBytes v 2).take 1
  else if MaxUint08 ≤ v ∧ v < MaxUint16 then
    0xFC :: leBytes v 2
  else if MaxUint16 ≤ v ∧ v < MaxUint24 then
    0xFD :: (leBytes v 4).take 3
  else if MaxUint24 ≤ v ∧ v < MaxUint64 then
    0xFE :: (leBytes v 8 ++ [0])
  else
    []

/-- The read side of `Conn`: the bytes the byte-at-a-time scanner can
still deliver, and the error (`scanner.Err()`) it reports once they are
exhausted (`none` models a clean EOF, for which Go's `Scanner.Err`
returns nil). -/
structure ScanConn where
  data : List Nat
  scanErr : Option String
deriving DecidableEq

/-- `Conn.readBytes` from the source: scans `l` times, appending one byte
per successful scan.  A failed scan panics when `scanner.Err()` is
non-nil (embedded as `.error`); on a clean EOF the loop keeps running and
the short byte string is returned as-is. -/
def readBytes (l : Nat) (s : ScanConn) : Except String (List Nat × ScanConn) :=
  if l ≤ s.data.length then .ok (s.data.take l, ⟨s.data.drop l, s.scanErr⟩)
  else
    match s.scanErr with
    | some e => .error e
    | none => .ok (s.data, ⟨[], none⟩)

/-- `Conn.decFixedInt` from the source: reads `l` bytes, pads them with
null bytes to the width of the intermediate unsigned integer (16/32/64
bits chosen by `l ≤ 2` / `l ≤ 4` / `l ≤ 8`) and decodes little-endian;
`binary.Read` consumes exactly the width.  For `l > 8` the accumulator
`i` keeps its zero value. -/
def decFixedInt (l : Nat) (s : ScanConn) : Except String (Nat × ScanConn) :=
  match readBytes l s with
  | .error e => .error e
  | .ok (b, s1) =>
    let i : Nat :=
      if l ≤ 2 then leUint ((padBytes 2 b).take 2)
      else if l ≤ 4 then leUint ((padBytes 4 b).take 4)
      else if l ≤ 8 then leUint ((padBytes 8 b).take 8)
      else 0
    .ok (i, s1)

/-- Go's `binary.Read(r, LittleEndian, &l)` for a `uint16` destination:
it first does `io.ReadFull` of 2 bytes and returns the read error without
touching the destination when fewer are available. -/
def binReadUint16 (b : List Nat) : Option Nat :=
  if 2 ≤ b.length then some (leUint (b.take 2)) else none

/-- `Conn.decLenEncInt` from the source: reads one byte, then attempts a
`binary.Read` of a `uint16` from the single-byte buffer.  That read needs
2 bytes, fails, and the discarded error leaves `l` at its zero value, so
the `l > 0` branch reading `l` further bytes is never taken. -/
def decLenEncInt (s : ScanConn) : Except String (Nat × ScanConn) :=
  match readBytes 1 s with
  | .error e => .error e
  | .ok (b, s1) =>
    let l := (binReadUint16 b).getD 0
    if 0 < l then decFixedInt l s1 else .ok (0, s1)

/-- Follows the spec's words, for comparison with `decLenEncInt` (spec
section 4.1): one prefix byte; values up to 0xFB are the integer itself,
0xFC introduces 2 little-endian bytes, 0xFD introduces 3, 0xFE
introduces 8, and 0xFF is a decode failure. -/
def specDecLenEncInt (s : ScanConn) : Except String (Nat × ScanConn) :=
  match readBytes 1 s with
  | .error e => .error e
  | .ok (b, s1) =>
    let p := b.headD 0
    if p ≤ 0xFB then .ok (p, s1)
    else if p = 0xFC then decFixedInt 2 s1
    else if p = 0xFD then decFixedInt 3 s1
    else if p = 0xFE then decFixedInt 8 s1
    else .error "malformed length encoded integer marker 0xFF"

/-- The write side of `Conn`: the held encode error `err`, the outgoing
accumulator `writeBuf` (`none` is Go's nil buffer, allocated on first
use), the `sequenceID` counter, and the frames already flushed to the
transport (the transport receives their concatenation; keeping them as a
list preserves the per-packet boundaries one `Flush` = one frame). -/
structure WConn where
  err : Option String
  writeBuf : Option (List Nat)
  sequenceID : Nat
  sent : List (List Nat)
deriving DecidableEq

/-- `Conn.putBytes` from the source (its returned byte count is not
modelled): `setupWriteBuffer` allocates the accumulator if nil, then the
bytes are appended.  `bytes.Buffer.Write` never returns an error, so the
`c.err = err` branch is dead and `err` is unchanged. -/
def putBytes (v : List Nat) (c : WConn) : WConn :=
  { c with writeBuf := some (c.writeBuf.getD [] ++ v) }

/-- `Conn.addHeader` from the source: reads the accumulator length and
the current sequence ID, increments the counter, and returns the 3-byte
little-endian length, the 1-byte sequence ID and the payload. -/
def addHeader (c : WConn) : List Nat × WConn :=
  (encFixedLenInt (c.writeBuf.getD []).length 3 ++
     encFixedLenInt c.sequenceID 1 ++ c.writeBuf.getD [],
   { c with sequenceID := c.sequenceID + 1 })

/-- `Conn.Flush` from the source: returns the held error without touching
anything when `err` is non-nil; otherwise frames the accumulator via
`addHeader`, writes the frame to the transport (the buffered writer is
assumed healthy, as in the source's ignored write error) and clears the
accumulator. -/
def Flush (c : WConn) : WConn × Option String :=
  match c.err with
  | some e => (c, some e)
  | none =>
    let bc := addHeader c
    ({ bc.2 with writeBuf := none, sent := bc.2.sent ++ [bc.1] }, none)

/-- One encode-then-flush step: accumulate payload `p`, then `Flush`. -/
def putFlush (p : List Nat) (c : WConn) : WConn := (Flush (putBytes p c)).1

/-- Iterated `putFlush`: the connection after flushing each payload of
`ps` in order. -/
def flushes (c : WConn) : List (List Nat) → WConn
  | [] => c
  | p :: ps => flushes (putFlush p c) ps

/-- The frame `addHeader` builds for payload `p` at sequence counter `s`. -/
def frameOf (s : Nat) (p : List Nat) : List Nat :=
  encFixedLenInt p.length 3 ++ encFixedLenInt s 1 ++ p

/-- The frames a run of flushes emits, starting at sequence counter `s`. -/
def framesFrom (s : Nat) : List (List Nat) → List (List Nat)
  | [] => []
  | p :: ps => frameOf s p :: framesFrom (s + 1) ps

/-- The `m |= 1 << i` loop of `Conn.structToBitmask`: the struct shape is
its list of boolean fields in declaration order; `m` is a Go `uint64`, so
each flag is reduced modulo 2 ^ 64 (in Go a shift count of 64 or more
yields 0, which the reduction reproduces). -/
def structToBitmaskMask (fields : List Bool) : Nat :=
  (List.range fields.length).foldl
    (fun m i => if fields.getD i false then m ||| ((1 <<< i) % 2 ^ 64) else m) 0

/-- `Conn.structToBitmask` from the source: the bitmask is written with
`PutUint64` into 8 bytes and truncated by `l = ceil(fieldCount/8)` to
8, 4, 2 or 1 bytes (`l > 4` / `l > 2` / `l > 1` / default). -/
def structToBitmask (fields : List Bool) : List Nat :=
  let m := structToBitmaskMask fields
  let l := (fields.length + 7) / 8
  let b := leBytes m 8
  if l > 4 then b
  else if l > 2 then b.take 4
  else if l > 1 then b.take 2
  else b.take 1

/-- `Conn.bitmaskToStruct` from the source, for a shape of `k` boolean
fields: the width is chosen from `len(b)` (`l > 4` / `l > 2` / `l > 1` /
default); each branch decodes the little-endian integer of that width
(Go's `binary.LittleEndian.UintNN` reads exactly the first NN/8 bytes and
panics when fewer exist; the claims only reach it with enough bytes, and
`b[0]` of the default branch is `headD`) and tests `x & (1 << i) > 0`,
the flag wrapped at the branch's width exactly as the Go conversion
wraps it. -/
def bitmaskToStruct (b : List Nat) (k : Nat) : List Bool :=
  let l := b.length
  (List.range k).map fun i =>
    if l > 4 then decide (0 < leUint (b.take 8) &&& ((1 <<< i) % 2 ^ 64))
    else if l > 2 then decide (0 < leUint (b.take 4) &&& ((1 <<< i) % 2 ^ 32))
    else if l > 1 then decide (0 < leUint (b.take 2) &&& ((1 <<< i) % 2 ^ 16))
    else decide (0 < b.headD 0 &&& ((1 <<< i) % 2 ^ 64))

/-! SHA-1 and SHA-256 (FIPS 180-4), as Go's `crypto/sha1` and
`crypto/sha256` compute them, executed over byte lists with 32-bit words
as `Nat` reduced modulo 2 ^ 32. -/

/-- Reduction to a 32-bit word. -/
def w32 (x : Nat) : Nat := x % 4294967296

/-- Right rotation of a 32-bit word. -/
def rotr32 (n x : Nat) : Nat := w32 ((x >>> n) ||| (x <<< (32 - n)))

/-- Left rotation of a 32-bit word. -/
def rotl32 (n x : Nat) : Nat := w32 ((x <<< n) ||| (x >>> (32 - n)))

/-- Bitwise complement of a 32-bit word. -/
def not32 (x : Nat) : Nat := x ^^^ 0xFFFFFFFF

/-- Big-endian byte image of `v` in `n` bytes. -/
def beBytes (n v : Nat) : List Nat := (leBytes v n).reverse

/-- Big-endian word value of a byte string. -/
def beWord (b : List Nat) : Nat := b.foldl (fun acc x => 256 * acc + x) 0

/-- The byte string split into big-endian 32-bit words. -/
def toWordsBE (bs : List Nat) : List Nat :=
  (List.range (bs.length / 4)).map fun i => beWord ((bs.drop (4 * i)).take 4)

/-- The byte string split into 64-byte blocks. -/
def toBlocks (bs : List Nat) : List (List Nat) :=
  (List.range (bs.length / 64)).map fun i => (bs.drop (64 * i)).take 64

/-- Merkle-Damgard padding shared by SHA-1 and SHA-256: a 0x80 byte, zero
bytes to 56 mod 64, and the big-endian 64-bit bit length. -/
def padMsg (msg : List Nat) : List Nat :=
  msg ++ 0x80 :: (List.replicate ((119 - msg.length % 64) % 64) 0 ++
    beBytes 8 (8 * msg.length))

/-- The SHA-256 round constants (FIPS 180-4 section 4.2.2: the first 32
bits of the fractional parts of the cube roots of the first 64 primes),
written in decimal. -/
def sha256K : List Nat :=
  [1116352408, 1899447441, 3049323471, 3921009573, 961987163, 1508970993,
   2453635748, 2870763221, 3624381080, 310598401, 607225278, 1426881987,
   1925078388, 2162078206, 2614888103, 3248222580, 3835390401, 4022224774,
   264347078, 604807628, 770255983, 1249150122, 1555081692, 1996064986,
   2554220882, 2821834349, 2952996808, 3210313671, 3336571891, 3584528711,
   113926993, 338241895, 666307205, 773529912, 1294757372, 1396182291,
   1695183700, 1986661051, 2177026350, 2456956037, 2730485921, 2820302411,
   3259730800, 3345764771, 3516065817, 3600352804, 4094571909, 275423344,
   430227734, 506948616, 659060556, 883997877, 958139571, 1322822218,
   1537002063, 1747873779, 1955562222, 2024104815, 2227730452, 2361852424,
   2428436474, 2756734187, 3204031479, 3329325298]

/-- The SHA-256 initial hash value. -/
def sha256H0 : List Nat :=
  [0x6a09e667, 0xbb67ae85, 0x3c6ef372, 0xa54ff53a, 0x510e527f, 0x9b05688c, 0x1f83d9ab, 0x5be0cd19]

/-- The choice function of SHA-1 rounds 0-19 and SHA-256. -/
def chF (x y z : Nat) : Nat := (x &&& y) ^^^ (not32 x &&& z)

/-- The majority function of SHA-1 rounds 40-59 and SHA-256. -/
def majF (x y z : Nat) : Nat := (x &&& y) ^^^ (x &&& z) ^^^ (y &&& z)

/-- SHA-256 Sigma0. -/
def bigSigma0 (x : Nat) : Nat := rotr32 2 x ^^^ rotr32 13 x ^^^ rotr32 22 x

/-- SHA-256 Sigma1. -/
def bigSigma1 (x : Nat) : Nat := rotr32 6 x ^^^ rotr32 11 x ^^^ rotr32 25 x

/-- SHA-256 sigma0. -/
def smallSigma0 (x : Nat) : Nat := rotr32 7 x ^^^ rotr32 18 x ^^^ (x >>> 3)

/-- SHA-256 sigma1. -/
def smallSigma1 (x : Nat) : Nat := rotr32 17 x ^^^ rotr32 19 x ^^^ (x >>> 10)

/-- The SHA-256 message schedule: the 16 block words extended to 64. -/
def sha256Schedule (w16 : List Nat) : List Nat :=
  (List.range 48).foldl
    (fun ws _ =>
      let t := ws.length
      ws ++ [w32 (smallSigma1 (ws.getD (t - 2) 0) + ws.getD (t - 7) 0 +
                  smallSigma0 (ws.getD (t - 15) 0) + ws.getD (t - 16) 0)])
    w16

/-- One SHA-256 round on the eight working variables. -/
def sha256Round (st : List Nat) (kw : Nat × Nat) : List Nat :=
  match st with
  | [a, b, c, d, e, f, g, h] =>
    let t1 := w32 (h + bigSigma1 e + chF e f g + kw.1 + kw.2)
    let t2 := w32 (bigSigma0 a + majF a b c)
    [w32 (t1 + t2), a, b, c, w32 (d + t1), e, f, g]
  | _ => st

/-- The SHA-256 compression function for one 64-byte block. -/
def sha256Compress (hs block : List Nat) : List Nat :=
  let st := ((sha256K.zip (sha256Schedule (toWordsBE block))).foldl sha256Round hs)
  List.zipWith (fun x y => w32 (x + y)) hs st

/-- `Conn.sha256Hash` from the source: Go's `crypto/sha256` digest of the
byte string. -/
def sha256Hash (msg : List Nat) : List Nat :=
  (((toBlocks (padMsg msg)).foldl sha256Compress sha256H0).map (beBytes 4)).flatten

/-- The SHA-1 initial hash value. -/
def sha1H0 : List Nat := [0x67452301, 0xEFCDAB89, 0x98BADCFE, 0x10325476, 0xC3D2E1F0]

/-- The SHA-1 round function, by round number. -/
def sha1F (t b c d : Nat) : Nat :=
  if t < 20 then (b &&& c) ||| (not32 b &&& d)
  else if t < 40 then b ^^^ c ^^^ d
  else if t < 60 then (b &&& c) ||| (b &&& d) ||| (c &&& d)
  else b ^^^ c ^^^ d

/-- The SHA-1 round constant, by round number. -/
def sha1KC (t : Nat) : Nat :=
  if t < 20 then 0x5A827999
  else if t < 40 then 0x6ED9EBA1
  else if t < 60 then 0x8F1BBCDC
  else 0xCA62C1D6

/-- The SHA-1 message schedule: the 16 block words extended to 80. -/
def sha1Schedule (w16 : List Nat) : List Nat :=
  (List.range 64).foldl
    (fun ws _ =>
      let t := ws.length
      ws ++ [rotl32 1 (ws.getD (t - 3) 0 ^^^ ws.getD (t - 8) 0 ^^^
                       ws.getD (t - 14) 0 ^^^ ws.getD (t - 16) 0)])
    w16

/-- The SHA-1 compression function for one 64-byte block. -/
def sha1Compress (hs block : List Nat) : List Nat :=
  let st := ((List.range 80).zip (sha1Schedule (toWordsBE block))).foldl
    (fun st tw =>
      match st with
      | [a, b, c, d, e] =>
        [w32 (rotl32 5 a + sha1F tw.1 b c d + e + sha1KC tw.1 + tw.2),
         a, rotl32 30 b, c, d]
      | _ => st)
    hs
  List.zipWith (fun x y => w32 (x + y)) hs st

/-- `Conn.sha1Hash` from the source: Go's `crypto/sha1` digest of the
byte string. -/
def sha1Hash (msg : List Nat) : List Nat :=
  (((toBlocks (padMsg msg)).foldl sha1Compress sha1H0).map (beBytes 4)).flatten

/-- `Conn.nativeSha1Auth`, the copy in the unnamed authentication source
file: guards against an empty password, then XORs `SHA1(password)` with
`SHA1(salt ++ SHA1(SHA1(password)))` byte-wise (the Go loop runs over the
indices of the first operand; both operands are 20 bytes). -/
def nativeSha1Auth (salt password : List Nat) : List Nat :=
  if password.length < 1 then []
  else
    let pHash := sha1Hash password
    let pHashHash := sha1Hash pHash
    let spHash := sha1Hash (salt ++ pHashHash)
    List.zipWith (fun x y => x ^^^ y) pHash spHash

/-- `Conn.cachingSha2Auth` from the source (both copies are identical):
guards against an empty password, hashes the password, hashes that hash,
hashes it a third time, appends the salt and hashes once more, then XORs
the first hash with the result byte-wise. -/
def cachingSha2Auth (salt password : List Nat) : List Nat :=
  if password.length < 1 then []
  else
    let pHash := sha256Hash password
    let pHashHash := sha256Hash pHash
    let pHashHashHash := sha256Hash pHashHash
    let authData := sha256Hash (pHashHashHash ++ salt)
    List.zipWith (fun x y => x ^^^ y) pHash authData

/-- Follows the spec's words, for comparison with `cachingSha2Auth` (spec
section 4.5): `SHA256(password) XOR SHA256(SHA256(SHA256(password)) ++
salt)`, XOR byte-wise over the 32-byte width. -/
def specCachingSha2 (salt password : List Nat) : List Nat :=
  List.zipWith (fun x y => x ^^^ y) (sha256Hash password)
    (sha256Hash (sha256Hash (sha256Hash password) ++ salt))

namespace AuthGo

/-- `Conn.nativeSha1Auth`, the copy in src/binlog/authentication.go: the
same XOR computation but with no empty-password guard. -/
def nativeSha1Auth (salt password : List Nat) : List Nat :=
  let pHash := sha1Hash password
  let pHashHash := sha1Hash pHash
  let spHash := sha1Hash (salt ++ pHashHash)
  List.zipWith (fun x y => x ^^^ y) pHash spHash

/-- `Conn.cachingSha2Auth`, the copy in src/binlog/authentication.go
(identical to the unnamed file's copy, including the guard). -/
def cachingSha2Auth (salt password : List Nat) : List Nat :=
  if password.length < 1 then []
  else
    let pHash := sha256Hash password
    let pHashHash := sha256Hash pHash
    let pHashHashHash := sha256Hash pHashHash
    let authData := sha256Hash (pHashHashHash ++ salt)
    List.zipWith (fun x y => x ^^^ y) pHash authData

end AuthGo

/-! Helper lemmas about the little-endian primitives. -/

theorem leBytes_length (v n : Nat) : (leBytes v n).length = n := by
  induction n generalizing v with
  | zero => rfl
  | succ n ih => simp [leBytes, ih]

theorem take_leBytes (m : Nat) : ∀ (n v : Nat), m ≤ n → (leBytes v n).take m = leBytes v m := by
  induction m with
  | zero => intro n v _; simp [leBytes]
  | succ m ih =>
    intro n v h
    cases n with
    | zero => omega
    | succ n => simp [leBytes, ih n (v / 256) (by omega)]

theorem leUint_cons (x : Nat) (b : List Nat) : leUint (x :: b) = x + 256 * leUint b := rfl

theorem leUint_replicate_zero (k : Nat) : leUint (List.replicate k 0) = 0 := by
  induction k with
  | zero => rfl
  | succ k ih => simp [List.replicate_succ, leUint_cons, ih]

theorem leUint_append_zeros (b : List Nat) (k : Nat) :
    leUint (b ++ List.replicate k 0) = leUint b := by
  induction b with
  | nil => simpa using leUint_replicate_zero k
  | cons x b ih => simp [leUint_cons, List.cons_append, ih]

theorem leUint_leBytes (n : Nat) : ∀ (v : Nat), leUint (leBytes v n) = v % 2 ^ (8 * n) := by
  induction n with
  | zero => intro v; simp [leBytes, leUint, Nat.mod_one]
  | succ n ih =>
    intro v
    have h2 : 2 ^ (8 * (n + 1)) = 256 * 2 ^ (8 * n) := by
      rw [Nat.mul_succ, pow_add]; ring
    rw [leBytes, leUint_cons, ih, h2, Nat.mod_mul]

theorem leUint_pad_take (w : Nat) (b : List Nat) (h : b.length ≤ w) :
    leUint ((padBytes w b).take w) = leUint b := by
  have hl : (padBytes w b).length ≤ w := by
    simp only [padBytes, List.length_append, List.length_replicate]
    omega
  rw [List.take_of_length_le hl, padBytes, leUint_append_zeros]

theorem encFixedLenInt_eq (v l : Nat) (h : l ≤ 8) : encFixedLenInt v l = leBytes v l :=
  take_leBytes l 8 v h

/-- Claim C1: the claim says `decLenEncInt` branches on the 1-byte marker
(values up to 0xFB are the integer, 0xFC/0xFD/0xFE introduce 2/3/8 more
bytes, 0xFF fails).  The code instead feeds the single marker byte to a
2-byte `binary.Read`, which fails and leaves the width variable zero, so
`decLenEncInt` consumes one byte and returns 0 for every input.  This
theorem evaluates the code (and, for contrast, the decoder that follows
the spec's words) at two failing inputs. -/
theorem decLenEncInt_always_zero :
    decLenEncInt ⟨[5], none⟩ = .ok (0, ⟨[], none⟩) ∧
    specDecLenEncInt ⟨[5], none⟩ = .ok (5, ⟨[], none⟩) ∧
    decLenEncInt ⟨[252, 1, 0], none⟩ = .ok (0, ⟨[1, 0], none⟩) ∧
    specDecLenEncInt ⟨[252, 1, 0], none⟩ = .ok (1, ⟨[], none⟩) ∧
    specDecLenEncInt ⟨[255], none⟩ =
      .error "malformed length encoded integer marker 0xFF" :=
  ⟨rfl, rfl, rfl, rfl, rfl⟩

/-- Claim C2: the claim places the encoder's case boundaries at 0xFB,
0x10000 and 0x1000000 with payload widths 2, 3 and 8.  The code uses
0xFF, 0xFFFF and 0xFFFFFF instead, and its fourth case emits 9 payload
bytes (the 9-byte buffer is never truncated to 8).  Evaluations: 250 and
65536 happen to match the claim, but 251 is emitted as one byte, 65535
gets the 0xFD form, 16777215 gets the 0xFE form, and the 0xFE form
carries a trailing tenth byte. -/
theorem encLenEncInt_boundary_values :
    encLenEncInt 250 = [250] ∧
    encLenEncInt 251 = [251] ∧
    encLenEncInt 65535 = [253, 255, 255, 0] ∧
    encLenEncInt 65536 = [253, 0, 0, 1] ∧
    encLenEncInt 16777215 = [254, 255, 255, 255, 0, 0, 0, 0, 0, 0] ∧
    encLenEncInt 16777216 = [254, 0, 0, 0, 1, 0, 0, 0, 0, 0] := by
  refine ⟨by decide, by decide, by decide, by decide, by decide, by decide⟩

/-- Claim C3: the claim (and the spec's formula) is `SHA256(password) XOR
SHA256(SHA256(SHA256(password)) ++ salt)`; the code hashes the password a
third time before appending the salt.  Evaluated at password "secret"
(raw UTF-8 bytes) and the 20-byte salt 0..19, the code's output differs
from the spec's formula. -/
theorem cachingSha2Auth_formula_divergence :
    cachingSha2Auth (List.range 20) [115, 101, 99, 114, 101, 116] ≠
      specCachingSha2 (List.range 20) [115, 101, 99, 114, 101, 116] := by
  decide

/-- Claim C5: when the connection already holds an encode error, `Flush`
returns exactly that error and the connection — accumulator, sequence
counter and transport included — is unchanged. -/
theorem Flush_returns_held_error (c : WConn) (e : String) (h : c.err = some e) :
    Flush c = (c, some e) := by
  simp [Flush, h]

/-- Witness for Claim C5 at a concrete connection state. -/
theorem Flush_returns_held_error_witness :
    Flush ⟨some "bad write", some [1, 2], 5, []⟩ =
      (⟨some "bad write", some [1, 2], 5, []⟩, some "bad write") :=
  Flush_returns_held_error _ "bad write" rfl

/-- Claim C6: decoding the n-byte little-endian encoding of `v` recovers
`v` reduced modulo 2 ^ (8 n), for each supported width n in
{1, 2, 3, 4, 8}; the decoder also consumes the whole encoding. -/
theorem decFixedInt_encFixedLenInt_roundtrip (v n : Nat)
    (h : n = 1 ∨ n = 2 ∨ n = 3 ∨ n = 4 ∨ n = 8) :
    decFixedInt n ⟨encFixedLenInt v n, none⟩ = .ok (v % 2 ^ (8 * n), ⟨[], none⟩) := by
  have hb : encFixedLenInt v n = leBytes v n := encFixedLenInt_eq v n (by omega)
  have hlen : (encFixedLenInt v n).length = n := by rw [hb, leBytes_length]
  rcases h with rfl | rfl | rfl | rfl | rfl <;>
    simp [decFixedInt, readBytes, hlen, hb, List.take_of_length_le,
      List.drop_eq_nil_of_le, leUint_pad_take, leBytes_length, leUint_leBytes]

/-- Witness for Claim C6 at v = 123456789, n = 4. -/
theorem decFixedInt_encFixedLenInt_roundtrip_witness :
    decFixedInt 4 ⟨encFixedLenInt 123456789 4, none⟩ =
      .ok (123456789 % 2 ^ (8 * 4), ⟨[], none⟩) :=
  decFixedInt_encFixedLenInt_roundtrip 123456789 4 (by decide)

/-- Claim C8 counterexample: the copy of `nativeSha1Auth` in
src/binlog/authentication.go has no empty-password guard, so for the
empty password and the all-zero 20-byte salt it returns the full 20-byte
XOR value, not the empty byte string the claim states. -/
theorem authGo_nativeSha1Auth_empty_password_nonempty :
    AuthGo.nativeSha1Auth (List.replicate 20 0) [] ≠ [] := by decide

/-- Claim C8 as amended: for the empty password, `cachingSha2Auth` (both
copies) and the unnamed file's copy of `nativeSha1Auth` return the empty
byte string for every salt; the src/binlog/authentication.go copy of
`nativeSha1Auth`, which lacks the guard, returns a non-empty response. -/
theorem empty_password_auth_responses :
    (∀ salt : List Nat, nativeSha1Auth salt [] = [] ∧ cachingSha2Auth salt [] = [] ∧
       AuthGo.cachingSha2Auth salt [] = []) ∧
    AuthGo.nativeSha1Auth (List.range 20) [] ≠ [] :=
  ⟨fun _ => ⟨rfl, rfl, rfl⟩, by decide⟩

/-- Claim C9 counterexample: with 1 byte available and a cleanly closed
transport (scanner error nil), `decFixedInt 4` does not surface an error:
it zero-pads the truncated bytes and returns the value 1 computed from
them. -/
theorem decFixedInt_clean_eof_value :
    decFixedInt 4 ⟨[1], none⟩ = .ok (1, ⟨[], none⟩) := rfl

/-- Claim C9 as amended: when the transport failed with an error before
the field boundary, `readBytes` panics with it and `decFixedInt`
surfaces it; when the transport is cleanly exhausted, the short read is
silent and `decFixedInt` returns a value computed from the zero-padded
truncated bytes (second conjunct: one byte left of a 2-byte field). -/
theorem readBytes_error_surfaces :
    (∀ (l : Nat) (s : ScanConn) (e : String), s.scanErr = some e → s.data.length < l →
       decFixedInt l s = .error e) ∧
    decFixedInt 2 ⟨[5], none⟩ = .ok (5, ⟨[], none⟩) := by
  constructor
  · intro l s e h1 h2
    unfold decFixedInt readBytes
    rw [if_neg (Nat.not_le.mpr h2), h1]
  · rfl

/-- Witness for Claim C9's amended statement: a mid-field timeout error
is surfaced by `decFixedInt`. -/
theorem readBytes_error_surfaces_witness :
    decFixedInt 3 ⟨[1], some "timeout"⟩ = .error "timeout" :=
  readBytes_error_surfaces.1 3 ⟨[1], some "timeout"⟩ "timeout" rfl (by decide)

/-- Claim C10: no case of `encLenEncInt` covers 2 ^ 64 - 1 (the last case
requires the value to be strictly below MaxUint64), so the encoder
returns the empty byte string for it. -/
theorem encLenEncInt_maxUint64_empty : encLenEncInt MaxUint64 = [] := by decide

/-! Helper lemmas about the framing layer. -/

theorem frameOf_getD3 (s : Nat) (p : List Nat) : (frameOf s p).getD 3 0 = s % 256 := rfl

theorem flushes_spec (ps : List (List Nat)) :
    ∀ (c : WConn), c.err = none → c.writeBuf = none →
      flushes c ps =
        ⟨none, none, c.sequenceID + ps.length, c.sent ++ framesFrom c.sequenceID ps⟩ := by
  induction ps with
  | nil =>
    intro c h1 h2
    cases c
    simp_all [flushes, framesFrom]
  | cons p ps ih =>
    intro c h1 h2
    have hp : putFlush p c =
        ⟨none, none, c.sequenceID + 1, c.sent ++ [frameOf c.sequenceID p]⟩ := by
      cases c
      simp_all [putFlush, putBytes, Flush, addHeader, frameOf]
    rw [flushes, hp, ih _ rfl rfl]
    simp only [WConn.mk.injEq, framesFrom, List.append_assoc, List.singleton_append,
      List.length_cons, true_and, and_true]
    omega

theorem framesFrom_getD (ps : List (List Nat)) :
    ∀ (s i : Nat), i < ps.length →
      (framesFrom s ps).getD i [] = frameOf (s + i) (ps.getD i []) := by
  induction ps with
  | nil =>
    intro s i h
    simp at h
  | cons p ps ih =>
    intro s i h
    cases i with
    | zero => simp [framesFrom]
    | succ i =>
      have h2 : s + 1 + i = s + (i + 1) := by omega
      have := ih (s + 1) i (by simpa using h)
      rw [h2] at this
      simpa [framesFrom] using this

/-- Claim C4: starting from a connection whose sequence counter was
(re)set to 0, the Nth flushed packet carries the header sequence byte
`(N - 1) % 256` (the header layout is 3 length bytes then the sequence
byte, so it sits at index 3 of the frame); and after an explicit reset of
the counter to 0, the next flush carries sequence byte 0 whatever the
counter held before. -/
theorem flush_sequence_counter :
    (∀ (ps : List (List Nat)) (N : Nat), 1 ≤ N → N ≤ ps.length →
       ((flushes ⟨none, none, 0, []⟩ ps).sent.getD (N - 1) []).getD 3 0 = (N - 1) % 256) ∧
    (∀ (c : WConn) (p : List Nat), c.err = none →
       (((Flush (putBytes p { c with sequenceID := 0 })).1.sent.getLast?.getD
          []).getD 3 0) = 0) := by
  constructor
  · intro ps N hN1 hN2
    rw [flushes_spec ps _ rfl rfl]
    have := framesFrom_getD ps 0 (N - 1) (by omega)
    rw [Nat.zero_add] at this
    simp only [List.nil_append]
    rw [this, frameOf_getD3]
  · intro c p h
    have hfl : (Flush (putBytes p { c with sequenceID := 0 })).1 =
        ⟨none, none, 1, c.sent ++ [frameOf 0 (c.writeBuf.getD [] ++ p)]⟩ := by
      cases c
      simp_all [Flush, putBytes, addHeader, frameOf]
    rw [hfl]
    simp only [List.getLast?_concat, Option.getD_some]
    rw [frameOf_getD3]

/-- Witness for Claim C4: with three flushed payloads the second frame
carries sequence byte 1, and a flush after a reset from counter 4
carries sequence byte 0. -/
theorem flush_sequence_counter_witness :
    ((flushes ⟨none, none, 0, []⟩ [[7], [8], [9]]).sent.getD (2 - 1) []).getD 3 0 =
      (2 - 1) % 256 ∧
    (((Flush (putBytes [9] { (⟨none, some [3], 4, [[0]]⟩ : WConn) with
        sequenceID := 0 })).1.sent.getLast?.getD []).getD 3 0) = 0 :=
  ⟨flush_sequence_counter.1 [[7], [8], [9]] 2 (by decide) (by decide),
   flush_sequence_counter.2 ⟨none, some [3], 4, [[0]]⟩ [9] rfl⟩

/-! Helper lemmas about the capability bitmask mapping. -/

theorem flag_mod_eq (i s : Nat) (h : i < s) : (1 <<< i) % 2 ^ s = 2 ^ i := by
  rw [Nat.shiftLeft_eq, one_mul]
  exact Nat.mod_eq_of_lt (Nat.pow_lt_pow_right (by norm_num) h)

theorem foldMask_testBit (fields : List Bool) :
    ∀ (K : Nat), K ≤ 64 → ∀ (acc j : Nat),
      ((((List.range K).foldl
          (fun m i => if fields.getD i false then m ||| ((1 <<< i) % 2 ^ 64) else m)
          acc).testBit j) = true) ↔
        (acc.testBit j = true ∨ (j < K ∧ fields.getD j false = true)) := by
  intro K
  induction K with
  | zero =>
    intro _ acc j
    simp
  | succ K ih =>
    intro hK acc j
    rw [List.range_succ, List.foldl_append, List.foldl_cons, List.foldl_nil]
    rcases hf : fields.getD K false with _ | _
    · simp only [hf, Bool.false_eq_true, if_false]
      rw [ih (by omega) acc j]
      constructor
      · rintro (h | ⟨hlt, hbit⟩)
        · exact Or.inl h
        · exact Or.inr ⟨by omega, hbit⟩
      · rintro (h | ⟨hlt, hbit⟩)
        · exact Or.inl h
        · rcases Nat.lt_or_ge j K with h3 | h3
          · exact Or.inr ⟨h3, hbit⟩
          · exfalso
            have hje : j = K := by omega
            rw [hje, hf] at hbit
            exact Bool.false_ne_true hbit
    · simp only [hf, if_true]
      rw [flag_mod_eq K 64 (by omega), Nat.testBit_or, Bool.or_eq_true,
        ih (by omega) acc j, Nat.testBit_two_pow, decide_eq_true_eq]
      constructor
      · rintro ((h | ⟨hlt, hbit⟩) | hKj)
        · exact Or.inl h
        · exact Or.inr ⟨by omega, hbit⟩
        · refine Or.inr ⟨by omega, ?_⟩
          rw [← hKj]
          exact hf
      · rintro (h | ⟨hlt, hbit⟩)
        · exact Or.inl (Or.inl h)
        · rcases Nat.lt_or_ge j K with h3 | h3
          · exact Or.inl (Or.inr ⟨h3, hbit⟩)
          · exact Or.inr (by omega)

theorem structToBitmaskMask_bit (fields : List Bool) (h64 : fields.length ≤ 64) (i : Nat) :
    (structToBitmaskMask fields).testBit i = true ↔
      i < fields.length ∧ fields.getD i false = true := by
  unfold structToBitmaskMask
  rw [foldMask_testBit fields fields.length h64 0 i]
  simp [Nat.zero_testBit]

theorem maskBit_decide (fields : List Bool) (h64 : fields.length ≤ 64)
    (s i : Nat) (hi : i < fields.length) (his : i < s) :
    decide (0 < structToBitmaskMask fields % 2 ^ s &&& 2 ^ i) = fields.getD i false := by
  rw [Nat.and_two_pow, Nat.testBit_mod_two_pow, decide_eq_true his, Bool.true_and]
  rcases hb : fields.getD i false with _ | _
  · have ht : (structToBitmaskMask fields).testBit i = false := by
      by_contra hcon
      have h2 : (structToBitmaskMask fields).testBit i = true := by
        rcases hc : (structToBitmaskMask fields).testBit i with _ | _
        · exact absurd hc hcon
        · rfl
      have h3 := (structToBitmaskMask_bit fields h64 i).mp h2
      rw [hb] at h3
      exact Bool.false_ne_true h3.2
    rw [ht]
    simp
  · have ht : (structToBitmaskMask fields).testBit i = true :=
      (structToBitmaskMask_bit fields h64 i).mpr ⟨hi, hb⟩
    rw [ht]
    simp [Nat.two_pow_pos]

theorem bitmaskToStruct_one (b : List Nat) (hb : b.length = 1) (k : Nat) :
    bitmaskToStruct b k = (List.range k).map
      (fun i => decide (0 < b.headD 0 &&& (1 <<< i) % 2 ^ 64)) := by
  simp only [bitmaskToStruct, hb]
  norm_num

theorem bitmaskToStruct_two (b : List Nat) (hb : b.length = 2) (k : Nat) :
    bitmaskToStruct b k = (List.range k).map
      (fun i => decide (0 < leUint (b.take 2) &&& (1 <<< i) % 2 ^ 16)) := by
  simp only [bitmaskToStruct, hb]
  norm_num

theorem bitmaskToStruct_four (b : List Nat) (hb : b.length = 4) (k : Nat) :
    bitmaskToStruct b k = (List.range k).map
      (fun i => decide (0 < leUint (b.take 4) &&& (1 <<< i) % 2 ^ 32)) := by
  simp only [bitmaskToStruct, hb]
  norm_num

theorem bitmaskToStruct_eight (b : List Nat) (hb : b.length = 8) (k : Nat) :
    bitmaskToStruct b k = (List.range k).map
      (fun i => decide (0 < leUint (b.take 8) &&& (1 <<< i) % 2 ^ 64)) := by
  simp only [bitmaskToStruct, hb]
  norm_num

theorem map_decide_eq (fields : List Bool) (f : Nat → Bool)
    (hf : ∀ i, i < fields.length → f i = fields.getD i false) :
    (List.range fields.length).map f = fields := by
  refine List.ext_getElem (by simp) ?_
  intro i hi1 hi2
  simp only [List.getElem_map, List.getElem_range]
  rw [hf i hi2, List.getD_eq_getElem fields false hi2]

/-- Claim C7: for a struct shape of k boolean fields (1 ≤ k ≤ 64, bit i
is field i in declaration order) and any assignment, converting the
shape's assignment to its little-endian bitmask bytes and back recovers
the assignment. -/
theorem bitmask_struct_roundtrip (fields : List Bool)
    (h1 : 1 ≤ fields.length) (h64 : fields.length ≤ 64) :
    bitmaskToStruct (structToBitmask fields) fields.length = fields := by
  by_cases hA : fields.length ≤ 8
  · have hbm : structToBitmask fields = leBytes (structToBitmaskMask fields) 1 := by
      simp only [structToBitmask]
      rw [if_neg (by omega), if_neg (by omega), if_neg (by omega)]
      exact take_leBytes 1 8 _ (by omega)
    rw [hbm, bitmaskToStruct_one _ (leBytes_length _ 1) fields.length]
    refine map_decide_eq fields _ ?_
    intro i hi
    have hh : (leBytes (structToBitmaskMask fields) 1).headD 0 =
        structToBitmaskMask fields % 2 ^ 8 := rfl
    rw [hh, flag_mod_eq i 64 (by omega), maskBit_decide fields h64 8 i hi (by omega)]
  · by_cases hB : fields.length ≤ 16
    · have hbm : structToBitmask fields = leBytes (structToBitmaskMask fields) 2 := by
        simp only [structToBitmask]
        rw [if_neg (by omega), if_neg (by omega), if_pos (by omega)]
        exact take_leBytes 2 8 _ (by omega)
      rw [hbm, bitmaskToStruct_two _ (leBytes_length _ 2) fields.length]
      refine map_decide_eq fields _ ?_
      intro i hi
      have hx : leUint ((leBytes (structToBitmaskMask fields) 2).take 2) =
          structToBitmaskMask fields % 2 ^ 16 := by
        rw [List.take_of_length_le (by simp [leBytes_length]), leUint_leBytes]
      rw [hx, flag_mod_eq i 16 (by omega), maskBit_decide fields h64 16 i hi (by omega)]
    · by_cases hC : fields.length ≤ 32
      · have hbm : structToBitmask fields = leBytes (structToBitmaskMask fields) 4 := by
          simp only [structToBitmask]
          rw [if_neg (by omega), if_pos (by omega)]
          exact take_leBytes 4 8 _ (by omega)
        rw [hbm, bitmaskToStruct_four _ (leBytes_length _ 4) fields.length]
        refine map_decide_eq fields _ ?_
        intro i hi
        have hx : leUint ((leBytes (structToBitmaskMask fields) 4).take 4) =
            structToBitmaskMask fields % 2 ^ 32 := by
          rw [List.take_of_length_le (by simp [leBytes_length]), leUint_leBytes]
        rw [hx, flag_mod_eq i 32 (by omega), maskBit_decide fields h64 32 i hi (by omega)]
      · have hbm : structToBitmask fields = leBytes (structToBitmaskMask fields) 8 := by
          simp only [structToBitmask]
          rw [if_pos (by omega)]
        rw [hbm, bitmaskToStruct_eight _ (leBytes_length _ 8) fields.length]
        refine map_decide_eq fields _ ?_
        intro i hi
        have hx : leUint ((leBytes (structToBitmaskMask fields) 8).take 8) =
            structToBitmaskMask fields % 2 ^ 64 := by
          rw [List.take_of_length_le (by simp [leBytes_length]), leUint_leBytes]
        rw [hx, flag_mod_eq i 64 (by omega), maskBit_decide fields h64 64 i hi (by omega)]

/-- Witness for Claim C7 at a concrete 9-field assignment (two-byte
width). -/
theorem bitmask_struct_roundtrip_witness :
    bitmaskToStruct
      (structToBitmask [true, false, true, true, false, false, true, false, true])
      ([true, false, true, true, false, false, true, false, true] : List Bool).length =
      [true, false, true, true, false, false, true, false, true] :=
  bitmask_struct_roundtrip _ (by decide) (by decide)

end Binlog
